import Mathlib

/-!
Shallow embedding of the encrypted blob transform layer of the fileVault
repository (src/src/utils/encryptionUtils.ts) and of the download branch of
FileController (src/unnamed/part_001), together with proofs of the frozen
claims about them.

Byte buffers are modelled as `List Nat` (each entry a byte value).  The
Node.js `crypto` primitives used by the source (`aes-256-gcm` via
`createCipheriv` / `createDecipheriv`, `randomBytes`, and the hex codec of
`Buffer`) are embedded concretely: AES-256 and GCM are implemented from the
standard (FIPS-197 and NIST SP 800-38D), and the hex codec follows Node's
documented `Buffer.from(str, 'hex')` semantics, which stops decoding at the
first invalid character or dangling digit.  The fresh random draw performed
by `crypto.randomBytes(16)` inside `encryptFile` is modelled as an explicit
argument `ivRandom`, so `encryptFile` becomes a deterministic function of
the process key, the random draw, and the plaintext.
-/

namespace FileVault

/-! ### Hex codec (Node `Buffer.toString('hex')` / `Buffer.from(str, 'hex')`) -/

/-- Lower-case hex digit for a value below 16, as produced by Node's
`buf.toString('hex')`. -/
def hexChar (d : Nat) : Char :=
  if d < 10 then Char.ofNat (48 + d) else Char.ofNat (87 + d)

/-- Value of a hex digit character; accepts both cases, as Node's hex
decoder does. -/
def hexVal (c : Char) : Option Nat :=
  if 48 ≤ c.toNat ∧ c.toNat ≤ 57 then some (c.toNat - 48)
  else if 97 ≤ c.toNat ∧ c.toNat ≤ 102 then some (c.toNat - 87)
  else if 65 ≤ c.toNat ∧ c.toNat ≤ 70 then some (c.toNat - 55)
  else none

/-- Hex character sequence of a byte list (two lower-case digits per byte). -/
def hexChars : List Nat → List Char
  | [] => []
  | b :: bs => hexChar (b / 16) :: hexChar (b % 16) :: hexChars bs

/-- Model of `buf.toString('hex')`. -/
def hexEncode (bs : List Nat) : String := String.mk (hexChars bs)

/-- Model of Node's hex decoding on a character list: bytes are read as
pairs of hex digits, and decoding stops (truncates) at the first invalid
character or at a dangling final digit. -/
def hexDecodeChars : List Char → List Nat
  | c1 :: c2 :: rest =>
    match hexVal c1, hexVal c2 with
    | some hi, some lo => (16 * hi + lo) :: hexDecodeChars rest
    | _, _ => []
  | _ => []

/-- Model of `Buffer.from(s, 'hex')`. -/
def hexDecode (s : String) : List Nat := hexDecodeChars s.data

/-! ### GF(2^8) arithmetic and the AES-256 block cipher (FIPS-197) -/

/-- Multiplication by x in GF(2^8) modulo the AES polynomial x^8+x^4+x^3+x+1. -/
def xtime (a : Nat) : Nat := if 2 * a < 256 then 2 * a else (2 * a) ^^^ 0x11b

/-- Russian-peasant GF(2^8) multiplication, 8 shift-and-add steps. -/
def gmulAux : Nat → Nat → Nat → Nat → Nat
  | 0, _, _, acc => acc
  | f + 1, a, b, acc =>
    gmulAux f (xtime a) (b / 2) (if b % 2 = 1 then acc ^^^ a else acc)

/-- GF(2^8) product. -/
def gmul (a b : Nat) : Nat := gmulAux 8 a b 0

/-- Square-and-multiply power in GF(2^8) (fuel on the exponent's bits). -/
def gpowAux : Nat → Nat → Nat → Nat
  | 0, _, _ => 1
  | f + 1, a, n =>
    if n = 0 then 1
    else if n % 2 = 1 then gmul a (gpowAux f (gmul a a) (n / 2))
    else gpowAux f (gmul a a) (n / 2)

/-- GF(2^8) inverse via a^254 (maps 0 to 0, as the AES S-box requires). -/
def ginv (a : Nat) : Nat := gpowAux 8 a 254

/-- Left-rotation of an 8-bit value by i positions. -/
def rot8 (b i : Nat) : Nat := ((b * 2 ^ i) % 256) ^^^ (b / 2 ^ (8 - i))

/-- The AES S-box, computed from its definition: GF(2^8) inversion followed
by the affine transformation. -/
def sbox (a : Nat) : Nat :=
  let x := ginv a
  x ^^^ rot8 x 1 ^^^ rot8 x 2 ^^^ rot8 x 3 ^^^ rot8 x 4 ^^^ 0x63

/-- SubBytes on a 16-byte state. -/
def subBytes (s : List Nat) : List Nat := s.map sbox

/-- ShiftRows on the flat column-major 16-byte state. -/
def shiftRows : List Nat → List Nat
  | [a0, a1, a2, a3, a4, a5, a6, a7, a8, a9, a10, a11, a12, a13, a14, a15] =>
    [a0, a5, a10, a15, a4, a9, a14, a3, a8, a13, a2, a7, a12, a1, a6, a11]
  | s => s

/-- MixColumns on one 4-byte column. -/
def mixCol : List Nat → List Nat
  | [b0, b1, b2, b3] =>
    [xtime b0 ^^^ (xtime b1 ^^^ b1) ^^^ b2 ^^^ b3,
     b0 ^^^ xtime b1 ^^^ (xtime b2 ^^^ b2) ^^^ b3,
     b0 ^^^ b1 ^^^ xtime b2 ^^^ (xtime b3 ^^^ b3),
     (xtime b0 ^^^ b0) ^^^ b1 ^^^ b2 ^^^ xtime b3]
  | c => c

/-- MixColumns on the 16-byte state (columns are consecutive 4-byte chunks). -/
def mixColumns (s : List Nat) : List Nat :=
  mixCol (s.take 4) ++ mixCol ((s.drop 4).take 4) ++
    mixCol ((s.drop 8).take 4) ++ mixCol (s.drop 12)

/-- Bytewise xor of two equal-length byte lists. -/
def zipXor (a b : List Nat) : List Nat := List.zipWith (fun x y => x ^^^ y) a b

/-- RotWord of the key schedule. -/
def rotWord : List Nat → List Nat
  | [a, b, c, d] => [b, c, d, a]
  | w => w

/-- SubWord of the key schedule. -/
def subWord (w : List Nat) : List Nat := w.map sbox

/-- Iterated xtime, used for the round constants. -/
def xtimeIter : Nat → Nat → Nat
  | 0, a => a
  | n + 1, a => xtimeIter n (xtime a)

/-- Round constant rcon j = x^(j-1) in GF(2^8). -/
def rconByte (j : Nat) : Nat := xtimeIter (j - 1) 1

/-- Key-schedule expansion step; `acc` holds the words generated so far in
reverse order, so its head is w[i-1] and entry 7 is w[i-8]. -/
def expandAux : Nat → List (List Nat) → List (List Nat)
  | 0, acc => acc
  | f + 1, acc =>
    let i := acc.length
    let prev := acc.headD [0, 0, 0, 0]
    let w8 := acc.getD 7 [0, 0, 0, 0]
    let temp :=
      if i % 8 = 0 then zipXor (subWord (rotWord prev)) [rconByte (i / 8), 0, 0, 0]
      else if i % 8 = 4 then subWord prev
      else prev
    expandAux f (zipXor w8 temp :: acc)

/-- The 60 expanded key-schedule words of AES-256 from a 32-byte key. -/
def keyWords (kb : List Nat) : List (List Nat) :=
  (expandAux 52 ((List.range 8).map (fun i => (kb.drop (4 * i)).take 4)).reverse).reverse

/-- Round key r as 16 bytes. -/
def roundKey (ws : List (List Nat)) (r : Nat) : List Nat :=
  ws.getD (4 * r) [] ++ ws.getD (4 * r + 1) [] ++
    ws.getD (4 * r + 2) [] ++ ws.getD (4 * r + 3) []

/-- AES-256 encryption of one 16-byte block (14 rounds). -/
def aesEncryptBlock (kb : List Nat) (block : List Nat) : List Nat :=
  let ws := keyWords kb
  let s0 := zipXor block (roundKey ws 0)
  let sm := (List.range 13).foldl
    (fun s r => zipXor (mixColumns (shiftRows (subBytes s))) (roundKey ws (r + 1))) s0
  zipXor (shiftRows (subBytes sm)) (roundKey ws 14)

/-! ### 128-bit blocks as natural numbers (big-endian byte order) -/

/-- Big-endian byte list to natural number. -/
def bytesToNat (bs : List Nat) : Nat := bs.foldl (fun acc b => acc * 256 + b) 0

/-- The k big-endian bytes of n (most significant first). -/
def natToBytesAux : Nat → Nat → List Nat
  | 0, _ => []
  | k + 1, n => (n / 256 ^ k % 256) :: natToBytesAux k n

/-- The 16 big-endian bytes of a 128-bit value. -/
def natToBytes16 (n : Nat) : List Nat := natToBytesAux 16 n

/-- AES-256 block encryption on 128-bit values. -/
def aesEncNat (kb : List Nat) (n : Nat) : Nat :=
  bytesToNat (aesEncryptBlock kb (natToBytes16 n))

/-! ### GCM (NIST SP 800-38D): GHASH, counter mode, tag -/

/-- One step of the GF(2^128) multiplication of GHASH, in the bit order of
SP 800-38D Algorithm 1 (blocks read big-endian, R = 0xe1 << 120). -/
def gmul128Aux : Nat → Nat → Nat → Nat → Nat
  | 0, _, _, z => z
  | f + 1, x, v, z =>
    let z2 := if x / 2 ^ 127 % 2 = 1 then z ^^^ v else z
    let v2 := if v % 2 = 1 then (v / 2) ^^^ (0xe1 * 2 ^ 120) else v / 2
    gmul128Aux f (x * 2 % 2 ^ 128) v2 z2

/-- GF(2^128) product of GHASH. -/
def gmul128 (x y : Nat) : Nat := gmul128Aux 128 x y 0

/-- GHASH of a block sequence under hash subkey h. -/
def ghash (h : Nat) (blocks : List Nat) : Nat :=
  blocks.foldl (fun y b => gmul128 (y ^^^ b) h) 0

/-- Split a byte string into 128-bit blocks, zero-padding the last one on
the right (fuel is the list length; each step consumes at least one byte). -/
def padBlocksAux : Nat → List Nat → List Nat
  | 0, _ => []
  | _ + 1, [] => []
  | f + 1, bs =>
    (bytesToNat (bs.take 16) * 256 ^ (16 - (bs.take 16).length)) :: padBlocksAux f (bs.drop 16)

/-- Zero-padded 128-bit blocks of a byte string. -/
def padBlocks (bs : List Nat) : List Nat := padBlocksAux bs.length bs

/-- First 32 bytes of the configured secret:
`Buffer.from(ENCRYPTION_KEY).slice(0, 32)` in the source. -/
def keyMaterial (kb : List Nat) : List Nat := kb.take 32

/-- GCM hash subkey H = CIPH_K(0^128). -/
def gcmH (km : List Nat) : Nat := bytesToNat (aesEncryptBlock km (natToBytes16 0))

/-- GCM pre-counter block J0.  The source draws 16-byte nonces, so the
GHASH branch for nonce lengths other than 12 is the live one. -/
def gcmJ0 (km : List Nat) (ivB : List Nat) : Nat :=
  if ivB.length = 12 then bytesToNat ivB * 2 ^ 32 + 1
  else ghash (gcmH km) (padBlocks ivB ++ [8 * ivB.length % 2 ^ 64])

/-- inc32: increment the low 32 bits of a counter block. -/
def inc32 (n : Nat) : Nat := n / 2 ^ 32 * 2 ^ 32 + (n + 1) % 2 ^ 32

/-- Concatenated CTR keystream blocks (fuel = number of blocks). -/
def ctrStreamAux (km : List Nat) : Nat → Nat → List Nat
  | 0, _ => []
  | f + 1, ctr => natToBytes16 (aesEncNat km ctr) ++ ctrStreamAux km f (inc32 ctr)

/-- The first n bytes of the GCM keystream for a given nonce. -/
def keystream (km ivB : List Nat) (n : Nat) : List Nat :=
  (ctrStreamAux km ((n + 15) / 16) (inc32 (gcmJ0 km ivB))).take n

/-- GCM ciphertext: plaintext xored with the keystream (same length as the
plaintext — stream mode, no padding). -/
def gcmCipher (km ivB p : List Nat) : List Nat := zipXor p (keystream km ivB p.length)

/-- The 16-byte GCM authentication tag over a ciphertext (no associated
data, as aes-256-gcm is used by the source): GHASH over the padded
ciphertext and the length block, xored with CIPH_K(J0). -/
def gcmTagBytes (km ivB ct : List Nat) : List Nat :=
  natToBytes16 (ghash (gcmH km) (padBlocks ct ++ [8 * ct.length % 2 ^ 64]) ^^^
    aesEncNat km (gcmJ0 km ivB))

/-! ### The encryption utility (src/src/utils/encryptionUtils.ts) -/

/-- Result record of `encryptFile`: the ciphertext buffer plus the nonce and
tag serialized as hex strings, exactly as the source returns them. -/
structure EncryptResult where
  encryptedData : List Nat
  iv : String
  authTag : String

/-- Model of the module-level startup gate of encryptionUtils.ts: the
`ENCRYPTION_KEY` environment variable (absent or a secret, modelled by its
byte list) must be present and at least 32 long, otherwise module
initialization throws before any seal or open call is possible. -/
def loadEncryptionKey : Option (List Nat) → Except String (List Nat)
  | none =>
    Except.error "ENCRYPTION_KEY environment variable must be set and at least 32 characters long"
  | some s =>
    if s.length < 32 then
      Except.error "ENCRYPTION_KEY environment variable must be set and at least 32 characters long"
    else Except.ok s

/-- Model of `encryptFile`: the 16-byte draw of `crypto.randomBytes(16)` is
the explicit argument `ivRandom`; the key material is the first 32 bytes of
the configured secret; the ciphertext and tag are those of AES-256-GCM; the
nonce and tag are serialized as lower-case hex. -/
def encryptFile (keyBytes ivRandom p : List Nat) : EncryptResult :=
  let km := keyMaterial keyBytes
  let ct := gcmCipher km ivRandom p
  { encryptedData := ct
    iv := hexEncode ivRandom
    authTag := hexEncode (gcmTagBytes km ivRandom ct) }

/-- Valid GCM tag lengths accepted by Node's `decipher.setAuthTag` when no
`authTagLength` option was given (128, 120, 112, 104, 96, 64 or 32 bits,
per NIST SP 800-38D and Node's DEP0090). -/
def validGcmTagLength (n : Nat) : Prop := n = 4 ∨ n = 8 ∨ (12 ≤ n ∧ n ≤ 16)

instance (n : Nat) : Decidable (validGcmTagLength n) := by
  unfold validGcmTagLength; infer_instance

/-- Model of `decryptFile`: hex-decode the stored nonce and tag with Node's
truncating hex decoder; `createDecipheriv` rejects an empty GCM IV;
`setAuthTag` rejects tags of invalid GCM length; `final()` verifies the
provided tag against the recomputed tag truncated to the provided length
and throws on mismatch, so on any failure no bytes are returned; on success
the full CTR decryption is returned. -/
def decryptFile (keyBytes encryptedData : List Nat) (iv authTag : String) :
    Except String (List Nat) :=
  let km := keyMaterial keyBytes
  let ivB := hexDecode iv
  let tagB := hexDecode authTag
  if ivB = [] then Except.error "Invalid initialization vector"
  else if ¬ validGcmTagLength tagB.length then
    Except.error "Invalid authentication tag length"
  else if (gcmTagBytes km ivB encryptedData).take tagB.length = tagB then
    Except.ok (zipXor encryptedData (keystream km ivB encryptedData.length))
  else Except.error "Unsupported state or unable to authenticate data"

/-! ### The download branch of FileController (src/unnamed/part_001) -/

/-- The fields of a stored file record that the download branch inspects:
the `is_encrypted` flag and the optional `iv` / `auth_tag` metadata
columns. -/
structure FileRecord where
  is_encrypted : Bool
  iv : Option String
  auth_tag : Option String

/-- JavaScript truthiness of an optional string field: absent (`undefined`
or `null`) and the empty string are falsy. -/
def truthy : Option String → Bool
  | none => false
  | some s => !s.isEmpty

/-- Model of the decrypt-or-passthrough branch of
`FileController.downloadFile`: if `is_encrypted` and both tokens are
truthy, the stored bytes are decrypted (a decryption error becomes the 500
"Failed to decrypt file" response); otherwise the stored bytes are returned
unchanged (the legacy branch). -/
def downloadFile (keyBytes : List Nat) (record : FileRecord) (stored : List Nat) :
    Except String (List Nat) :=
  if record.is_encrypted && truthy record.iv && truthy record.auth_tag then
    match decryptFile keyBytes stored (record.iv.getD "") (record.auth_tag.getD "") with
    | Except.ok pt => Except.ok pt
    | Except.error _ => Except.error "Failed to decrypt file"
  else Except.ok stored

/-! ### Basic lemmas about the embedding -/

theorem natToBytesAux_length (k n : Nat) : (natToBytesAux k n).length = k := by
  induction k generalizing n with
  | zero => rfl
  | succ k ih => simp [natToBytesAux, ih]

theorem natToBytesAux_lt (k n : Nat) : ∀ b ∈ natToBytesAux k n, b < 256 := by
  induction k generalizing n with
  | zero => simp [natToBytesAux]
  | succ k ih =>
    intro b hb
    simp only [natToBytesAux, List.mem_cons] at hb
    rcases hb with h | h
    · omega
    · exact ih n b h

theorem natToBytes16_length (n : Nat) : (natToBytes16 n).length = 16 :=
  natToBytesAux_length 16 n

theorem natToBytes16_lt (n : Nat) : ∀ b ∈ natToBytes16 n, b < 256 :=
  natToBytesAux_lt 16 n

theorem gcmTagBytes_length (km ivB ct : List Nat) : (gcmTagBytes km ivB ct).length = 16 :=
  natToBytes16_length _

theorem gcmTagBytes_lt (km ivB ct : List Nat) : ∀ b ∈ gcmTagBytes km ivB ct, b < 256 :=
  natToBytes16_lt _

theorem hexVal_hexChar (d : Nat) (h : d < 16) : hexVal (hexChar d) = some d := by
  interval_cases d <;> decide

theorem hexDecodeChars_hexChars (bs : List Nat) (h : ∀ b ∈ bs, b < 256) :
    hexDecodeChars (hexChars bs) = bs := by
  induction bs with
  | nil => rfl
  | cons b bs ih =>
    have hb : b < 256 := h b (List.mem_cons_self b bs)
    have hhi : b / 16 < 16 := by omega
    have hlo : b % 16 < 16 := by omega
    have hrest : ∀ x ∈ bs, x < 256 := fun x hx => h x (List.mem_cons_of_mem b hx)
    simp only [hexChars, hexDecodeChars, hexVal_hexChar _ hhi, hexVal_hexChar _ hlo, ih hrest]
    congr 1
    omega

theorem hexDecode_hexEncode (bs : List Nat) (h : ∀ b ∈ bs, b < 256) :
    hexDecode (hexEncode bs) = bs :=
  hexDecodeChars_hexChars bs h

theorem zipXor_length (a b : List Nat) : (zipXor a b).length = min a.length b.length :=
  List.length_zipWith _ a b

theorem ctrStreamAux_length (km : List Nat) (f c : Nat) :
    (ctrStreamAux km f c).length = 16 * f := by
  induction f generalizing c with
  | zero => rfl
  | succ f ih =>
    simp only [ctrStreamAux, List.length_append, natToBytes16_length, ih]
    omega

theorem keystream_length (km ivB : List Nat) (n : Nat) : (keystream km ivB n).length = n := by
  simp only [keystream, List.length_take, ctrStreamAux_length]
  omega

theorem gcmCipher_length (km ivB p : List Nat) : (gcmCipher km ivB p).length = p.length := by
  simp [gcmCipher, zipXor_length, keystream_length]

theorem zipXor_zipXor_cancel (p ks : List Nat) (h : ks.length = p.length) :
    zipXor (zipXor p ks) ks = p := by
  induction p generalizing ks with
  | nil => cases ks <;> rfl
  | cons x p ih =>
    cases ks with
    | nil => simp at h
    | cons y ks =>
      have hlen : ks.length = p.length := by simpa using h
      simp only [zipXor, List.zipWith]
      rw [Nat.xor_cancel_right]
      congr 1
      exact ih ks hlen

theorem zipXor_left_cancel (p a b : List Nat) (ha : a.length = p.length)
    (hb : b.length = p.length) (h : zipXor p a = zipXor p b) : a = b := by
  induction p generalizing a b with
  | nil =>
    cases a with
    | nil => cases b with
      | nil => rfl
      | cons y bs => simp at hb
    | cons x as => simp at ha
  | cons x p ih =>
    cases a with
    | nil => simp at ha
    | cons y as =>
      cases b with
      | nil => simp at hb
      | cons z bs =>
        simp only [zipXor, List.zipWith, List.cons.injEq] at h
        have hyz : y = z := by
          have := h.1
          have h1 : (x ^^^ y) ^^^ x = (x ^^^ z) ^^^ x := by rw [this]
          rwa [Nat.xor_comm x y, Nat.xor_cancel_right, Nat.xor_comm x z,
            Nat.xor_cancel_right] at h1
        have := ih as bs (by simpa using ha) (by simpa using hb) h.2
        rw [hyz, this]

theorem hexEncode_injOn (a b : List Nat) (ha : ∀ x ∈ a, x < 256) (hb : ∀ x ∈ b, x < 256)
    (h : hexEncode a = hexEncode b) : a = b := by
  have := congrArg hexDecode h
  rwa [hexDecode_hexEncode a ha, hexDecode_hexEncode b hb] at this

theorem encryptFile_encryptedData (kb r p : List Nat) :
    (encryptFile kb r p).encryptedData = gcmCipher (keyMaterial kb) r p := rfl

theorem encryptFile_iv (kb r p : List Nat) : (encryptFile kb r p).iv = hexEncode r := rfl

theorem encryptFile_authTag (kb r p : List Nat) :
    (encryptFile kb r p).authTag =
      hexEncode (gcmTagBytes (keyMaterial kb) r (gcmCipher (keyMaterial kb) r p)) := rfl

theorem gcmCipher_nil (km ivB : List Nat) : gcmCipher km ivB [] = [] := by
  simp [gcmCipher, zipXor]

/-! ### The claims -/

/-- C1: decrypting the result of encrypting any byte buffer p (the
`encryptedData`, `iv` and `authTag` returned by `encryptFile`, under the
same process key) returns p.  The hypotheses state what `crypto.randomBytes(16)`
guarantees about the modelled random draw: 16 entries, each a byte. -/
theorem encrypt_decrypt_roundtrip (keyBytes ivRandom p : List Nat)
    (hlen : ivRandom.length = 16) (hbytes : ∀ b ∈ ivRandom, b < 256) :
    decryptFile keyBytes (encryptFile keyBytes ivRandom p).encryptedData
      (encryptFile keyBytes ivRandom p).iv (encryptFile keyBytes ivRandom p).authTag =
      Except.ok p := by
  have hivdec : hexDecode (hexEncode ivRandom) = ivRandom := hexDecode_hexEncode _ hbytes
  have htagdec :
      hexDecode (hexEncode (gcmTagBytes (keyMaterial keyBytes) ivRandom
        (gcmCipher (keyMaterial keyBytes) ivRandom p))) =
        gcmTagBytes (keyMaterial keyBytes) ivRandom
          (gcmCipher (keyMaterial keyBytes) ivRandom p) :=
    hexDecode_hexEncode _ (gcmTagBytes_lt _ _ _)
  have hivne : ivRandom ≠ [] := by
    intro hcon
    rw [hcon] at hlen
    simp at hlen
  rw [encryptFile_encryptedData, encryptFile_iv, encryptFile_authTag]
  simp only [decryptFile, hivdec, htagdec, gcmTagBytes_length]
  rw [if_neg hivne, if_neg (not_not_intro (by decide : validGcmTagLength 16))]
  have htake :
      (gcmTagBytes (keyMaterial keyBytes) ivRandom
        (gcmCipher (keyMaterial keyBytes) ivRandom p)).take 16 =
        gcmTagBytes (keyMaterial keyBytes) ivRandom
          (gcmCipher (keyMaterial keyBytes) ivRandom p) := by
    rw [← gcmTagBytes_length (keyMaterial keyBytes) ivRandom
      (gcmCipher (keyMaterial keyBytes) ivRandom p)]
    exact List.take_length _
  rw [if_pos htake, gcmCipher_length]
  simp only [gcmCipher]
  rw [zipXor_zipXor_cancel p _ (keystream_length _ _ _)]

/-- Witness for C1 at a concrete key, draw and plaintext. -/
theorem encrypt_decrypt_roundtrip_witness :
    decryptFile (List.range 32)
      (encryptFile (List.range 32) (List.range 16) [104, 105]).encryptedData
      (encryptFile (List.range 32) (List.range 16) [104, 105]).iv
      (encryptFile (List.range 32) (List.range 16) [104, 105]).authTag =
      Except.ok [104, 105] :=
  encrypt_decrypt_roundtrip (List.range 32) (List.range 16) [104, 105] (by decide) (by decide)

/-- C3: `encryptFile` returns ciphertext of the same length as the
plaintext, an `iv` string that hex-decodes to exactly 16 bytes, and an
`authTag` string that hex-decodes to exactly 16 bytes. -/
theorem encryptFile_shape (keyBytes ivRandom p : List Nat)
    (hlen : ivRandom.length = 16) (hbytes : ∀ b ∈ ivRandom, b < 256) :
    (encryptFile keyBytes ivRandom p).encryptedData.length = p.length ∧
    (hexDecode (encryptFile keyBytes ivRandom p).iv).length = 16 ∧
    (hexDecode (encryptFile keyBytes ivRandom p).authTag).length = 16 := by
  refine ⟨?_, ?_, ?_⟩
  · rw [encryptFile_encryptedData, gcmCipher_length]
  · rw [encryptFile_iv, hexDecode_hexEncode _ hbytes, hlen]
  · rw [encryptFile_authTag, hexDecode_hexEncode _ (gcmTagBytes_lt _ _ _), gcmTagBytes_length]

/-- Witness for C3 at a concrete key, draw and plaintext. -/
theorem encryptFile_shape_witness :
    (encryptFile (List.range 32) (List.range 16) [1, 2, 3]).encryptedData.length = 3 ∧
    (hexDecode (encryptFile (List.range 32) (List.range 16) [1, 2, 3]).iv).length = 16 ∧
    (hexDecode (encryptFile (List.range 32) (List.range 16) [1, 2, 3]).authTag).length = 16 :=
  encryptFile_shape (List.range 32) (List.range 16) [1, 2, 3] (by decide) (by decide)

/-- C5: module initialization of the encryption utility fails when the
configured secret is missing or shorter than 32, and passes when the
secret has length at least 32. -/
theorem encryption_key_startup_gate (s : List Nat) :
    (loadEncryptionKey none =
      Except.error
        "ENCRYPTION_KEY environment variable must be set and at least 32 characters long") ∧
    (s.length < 32 → loadEncryptionKey (some s) =
      Except.error
        "ENCRYPTION_KEY environment variable must be set and at least 32 characters long") ∧
    (32 ≤ s.length → loadEncryptionKey (some s) = Except.ok s) := by
  refine ⟨rfl, fun h => ?_, fun h => ?_⟩
  · simp only [loadEncryptionKey]
    rw [if_pos h]
  · simp only [loadEncryptionKey]
    rw [if_neg (by omega)]

/-- Witness for C5: a 32-long secret passes the gate, a 1-long secret is
rejected. -/
theorem encryption_key_startup_gate_witness :
    loadEncryptionKey (some (List.range 32)) = Except.ok (List.range 32) ∧
    loadEncryptionKey (some [7]) =
      Except.error
        "ENCRYPTION_KEY environment variable must be set and at least 32 characters long" :=
  ⟨(encryption_key_startup_gate (List.range 32)).2.2 (by decide),
   (encryption_key_startup_gate [7]).2.1 (by decide)⟩

/-- C7: a stored record with `is_encrypted = false` and no nonce/tag is
returned by the download path unchanged, under every process key, without
invoking `decryptFile` (the result does not depend on the key at all). -/
theorem legacy_passthrough (keyBytes : List Nat) (record : FileRecord) (stored : List Nat)
    (henc : record.is_encrypted = false) (_hiv : record.iv = none)
    (_htag : record.auth_tag = none) :
    downloadFile keyBytes record stored = Except.ok stored := by
  simp [downloadFile, henc]

/-- Witness for C7 at a concrete legacy record. -/
theorem legacy_passthrough_witness :
    downloadFile [] ⟨false, none, none⟩ [10, 20, 30] = Except.ok [10, 20, 30] :=
  legacy_passthrough [] ⟨false, none, none⟩ [10, 20, 30] rfl rfl rfl

/-- C6 counterexample: a record flagged `is_encrypted = true` whose `iv`
field is absent is NOT rejected by the download path — the guard
`is_encrypted && iv && auth_tag` is false, so the legacy branch returns the
stored ciphertext bytes unchanged instead of an error. -/
theorem encrypted_record_missing_iv_not_rejected :
    downloadFile [] ⟨true, none, some "aabb"⟩ [9, 8, 7] = Except.ok [9, 8, 7] := rfl

/-- C6 amended: a stored record whose `is_encrypted` flag is true but whose
`iv` or `auth_tag` field is absent (or empty, both being falsy in the
guard) is routed to the legacy branch: the download path returns the stored
ciphertext bytes unchanged, for every process key, and never invokes
`decryptFile` — it does not reject the record. -/
theorem encrypted_record_missing_tokens_passthrough (keyBytes : List Nat)
    (record : FileRecord) (stored : List Nat) (_henc : record.is_encrypted = true)
    (h : truthy record.iv = false ∨ truthy record.auth_tag = false) :
    downloadFile keyBytes record stored = Except.ok stored := by
  rcases h with h | h <;> simp [downloadFile, h]

/-- Witness for the amended C6 at a concrete record with an absent `iv`. -/
theorem encrypted_record_missing_tokens_passthrough_witness :
    downloadFile [] ⟨true, none, some "00"⟩ [4, 5] = Except.ok [4, 5] :=
  encrypted_record_missing_tokens_passthrough [] ⟨true, none, some "00"⟩ [4, 5] rfl
    (Or.inl rfl)

/-- C8: the nonce and tag serialization of `encryptFile` is reversible hex:
decoding the returned `iv` string yields exactly the 16 random bytes that
were drawn, and decoding the returned `authTag` string yields exactly the
16 tag bytes computed over the ciphertext, so `decryptFile` reconstructs
the same byte values that were sealed with. -/
theorem seal_tokens_hex_reversible (keyBytes ivRandom p : List Nat)
    (hlen : ivRandom.length = 16) (hbytes : ∀ b ∈ ivRandom, b < 256) :
    hexDecode (encryptFile keyBytes ivRandom p).iv = ivRandom ∧
    hexDecode (encryptFile keyBytes ivRandom p).authTag =
      gcmTagBytes (keyMaterial keyBytes) ivRandom
        (encryptFile keyBytes ivRandom p).encryptedData ∧
    ivRandom.length = 16 ∧
    (gcmTagBytes (keyMaterial keyBytes) ivRandom
      (encryptFile keyBytes ivRandom p).encryptedData).length = 16 := by
  refine ⟨?_, ?_, hlen, gcmTagBytes_length _ _ _⟩
  · rw [encryptFile_iv, hexDecode_hexEncode _ hbytes]
  · rw [encryptFile_authTag, encryptFile_encryptedData,
      hexDecode_hexEncode _ (gcmTagBytes_lt _ _ _)]

/-- Witness for C8 at a concrete key, draw and plaintext. -/
theorem seal_tokens_hex_reversible_witness :
    hexDecode (encryptFile (List.range 32) (List.range 16) [255]).iv = List.range 16 :=
  (seal_tokens_hex_reversible (List.range 32) (List.range 16) [255] (by decide)
    (by decide)).1

/-- C9 counterexample: sealing the empty plaintext under two different
random draws yields the SAME (empty) ciphertext, refuting that two draws
that differ always give different ciphertexts. -/
theorem distinct_draws_equal_ciphertexts :
    (List.replicate 16 0 : List Nat) ≠ List.replicate 16 1 ∧
    (encryptFile (List.range 32) (List.replicate 16 0) []).encryptedData =
      (encryptFile (List.range 32) (List.replicate 16 1) []).encryptedData :=
  ⟨by decide, by
    rw [encryptFile_encryptedData, encryptFile_encryptedData, gcmCipher_nil, gcmCipher_nil]⟩

/-- C9 amended: the nonce of a seal is exactly the hex of the random draw —
independent of the plaintext — so two draws that differ always give two
different nonces; the ciphertexts differ exactly when the keystreams
induced by the two draws differ on the plaintext's length (for the empty
plaintext both ciphertexts are empty and equal). -/
theorem seal_nonce_uniqueness (keyBytes r1 r2 p : List Nat)
    (_h1 : r1.length = 16) (_h2 : r2.length = 16)
    (hb1 : ∀ b ∈ r1, b < 256) (hb2 : ∀ b ∈ r2, b < 256) (hne : r1 ≠ r2) :
    (encryptFile keyBytes r1 p).iv ≠ (encryptFile keyBytes r2 p).iv ∧
    (∀ q : List Nat, (encryptFile keyBytes r1 q).iv = hexEncode r1) ∧
    ((encryptFile keyBytes r1 p).encryptedData ≠ (encryptFile keyBytes r2 p).encryptedData ↔
      keystream (keyMaterial keyBytes) r1 p.length ≠
        keystream (keyMaterial keyBytes) r2 p.length) := by
  refine ⟨?_, fun q => rfl, ?_⟩
  · rw [encryptFile_iv, encryptFile_iv]
    intro hcon
    exact hne (hexEncode_injOn r1 r2 hb1 hb2 hcon)
  · rw [encryptFile_encryptedData, encryptFile_encryptedData]
    constructor
    · intro hct hks
      exact hct (by simp only [gcmCipher, hks])
    · intro hks hct
      exact hks (zipXor_left_cancel p _ _ (keystream_length _ _ _) (keystream_length _ _ _)
        (by simpa only [gcmCipher] using hct))

/-- Witness for the amended C9 at two concrete distinct draws. -/
theorem seal_nonce_uniqueness_witness :
    (encryptFile (List.range 32) (List.replicate 16 0) [42]).iv ≠
      (encryptFile (List.range 32) (List.replicate 16 1) [42]).iv :=
  (seal_nonce_uniqueness (List.range 32) (List.replicate 16 0) (List.replicate 16 1) [42]
    (by decide) (by decide) (by decide) (by decide) (by decide)).1

/-- C10: only the first 32 bytes of the configured secret are key material;
two secrets that agree on their first 32 bytes (both passing the startup
length check) make `encryptFile` and `decryptFile` behave identically. -/
theorem key_material_first_32_bytes (k1 k2 ivRandom p ct : List Nat) (ivHex tagHex : String)
    (hpre : k1.take 32 = k2.take 32) (_h1 : 32 ≤ k1.length) (_h2 : 32 ≤ k2.length) :
    encryptFile k1 ivRandom p = encryptFile k2 ivRandom p ∧
    decryptFile k1 ct ivHex tagHex = decryptFile k2 ct ivHex tagHex := by
  have hkm : keyMaterial k1 = keyMaterial k2 := hpre
  constructor
  · simp only [encryptFile, hkm]
  · simp only [decryptFile, hkm]

/-- Witness for C10 at two concrete secrets differing beyond byte 32. -/
theorem key_material_first_32_bytes_witness :
    encryptFile (List.range 32 ++ [1]) (List.range 16) [3, 4] =
      encryptFile (List.range 32 ++ [2]) (List.range 16) [3, 4] :=
  (key_material_first_32_bytes (List.range 32 ++ [1]) (List.range 32 ++ [2])
    (List.range 16) [3, 4] [] "" "" (by decide) (by decide) (by decide)).1

/-- C4 amended: `decryptFile` is fail-closed and atomic — an empty decoded
nonce or a decoded tag of invalid GCM length raises an error, and whenever
it returns bytes at all, the provided tag verified against the recomputed
tag and the returned buffer is the complete CTR decryption; it never
returns partially-decrypted or unverified bytes.  (Hex decoding truncates
at the first invalid character and shorter valid GCM tag lengths are
verified against the truncated recomputed tag, so some malformed encodings
still authenticate — see the counterexample.) -/
theorem decryptFile_fail_closed (keyBytes ct : List Nat) (ivHex tagHex : String) :
    (hexDecode ivHex = [] →
      decryptFile keyBytes ct ivHex tagHex = Except.error "Invalid initialization vector") ∧
    (hexDecode ivHex ≠ [] → ¬ validGcmTagLength (hexDecode tagHex).length →
      decryptFile keyBytes ct ivHex tagHex =
        Except.error "Invalid authentication tag length") ∧
    (∀ pt, decryptFile keyBytes ct ivHex tagHex = Except.ok pt →
      (gcmTagBytes (keyMaterial keyBytes) (hexDecode ivHex) ct).take
          (hexDecode tagHex).length = hexDecode tagHex ∧
      pt = zipXor ct (keystream (keyMaterial keyBytes) (hexDecode ivHex) ct.length)) := by
  refine ⟨fun h => ?_, fun h1 h2 => ?_, fun pt hpt => ?_⟩
  · simp only [decryptFile]
    rw [if_pos h]
  · simp only [decryptFile]
    rw [if_neg h1, if_pos h2]
  · simp only [decryptFile] at hpt
    split_ifs at hpt with hA hB hC
    refine ⟨hC, ?_⟩
    injection hpt with h
    exact h.symm

/-- Witness for the amended C4: an unparseable nonce string fails closed. -/
theorem decryptFile_fail_closed_witness :
    decryptFile [] [1, 2] "zz" "00" = Except.error "Invalid initialization vector" :=
  (decryptFile_fail_closed [] [1, 2] "zz" "00").1 (by decide)

/-- C4 counterexample: a tag that is present but of the WRONG length — the
first 12 of the 16 tag bytes, a malformed tag for this scheme — is not
treated as a failure: Node accepts 96-bit GCM tags and verifies them
against the truncated recomputed tag, so `decryptFile` returns plaintext
bytes instead of raising an error. -/
theorem truncated_tag_accepted :
    (hexDecode (hexEncode ((gcmTagBytes (keyMaterial (List.range 32)) (List.range 16)
      []).take 12))).length = 12 ∧
    decryptFile (List.range 32) [] (hexEncode (List.range 16))
      (hexEncode ((gcmTagBytes (keyMaterial (List.range 32)) (List.range 16) []).take 12)) =
      Except.ok [] := by
  have htagbytes :
      ∀ b ∈ (gcmTagBytes (keyMaterial (List.range 32)) (List.range 16) []).take 12,
        b < 256 :=
    fun b hb => gcmTagBytes_lt _ _ _ b (List.mem_of_mem_take hb)
  have hdec :
      hexDecode (hexEncode ((gcmTagBytes (keyMaterial (List.range 32)) (List.range 16)
        []).take 12)) =
        (gcmTagBytes (keyMaterial (List.range 32)) (List.range 16) []).take 12 :=
    hexDecode_hexEncode _ htagbytes
  have hlen12 :
      ((gcmTagBytes (keyMaterial (List.range 32)) (List.range 16) []).take 12).length = 12 := by
    rw [List.length_take, gcmTagBytes_length]
    decide
  have hivdec : hexDecode (hexEncode (List.range 16)) = List.range 16 :=
    hexDecode_hexEncode _ (by decide)
  refine ⟨by rw [hdec, hlen12], ?_⟩
  simp only [decryptFile, hdec, hivdec, hlen12]
  simp [zipXor]
  decide

end FileVault
